import Mathlib

/-!
Verification development for the `smf-leadsheet-builder` repository
(`src/main.py`).

The repository merges chord information decoded from Yamaha XF SysEx
messages in one MIDI file with the melody of a second MIDI file into
one lead-sheet timeline.

This file gives a shallow embedding of the two pieces of core logic:

* `_parse_xf_sysex_chords` (the SysEx chord decoder), embedded as
  `decodeMsgWith` / `decodeWith` over a list of raw SysEx messages.
  The external `music21` constructor `harmony.ChordSymbol(root, kind)`
  is abstracted as a parameter `mk : String → String → Option (String × String)`
  (returning `none` models the constructor raising an exception, which
  the source catches in its `try/except`); `mkChordSymbol` is the
  normal-case instantiation where construction succeeds and records
  the given root and kind.

* `create_lead_sheet` (the assembler), embedded as `assemble` over a
  decoded chord list and a parsed melody `Score`.  File parsing and
  MusicXML serialization are external collaborators and are outside
  the embedding; `assemble` covers steps 2–7 of the source function
  (melody part selection, metadata extraction, and the merge), and
  `create_lead_sheet` composes the decoder with `assemble` the way the
  source function does.  The external `music21` container
  `Stream.insert` is modelled by `insertStable`: a sorted-by-offset
  container with stable insertion semantics, as described by the
  collaborator contract of the specification (§5, §9).

Console warnings (`print("Warning: ...")`) are modelled as a returned
list of warning strings, and the `ValueError` raised for a melody with
no parts as `Except.error`.
-/

/-- A raw MIDI system-exclusive message: its data bytes together with the
time offset at which it occurs in the parsed timeline.  `data` is the
byte tuple returned by `element.getData()` in the source. -/
structure RawSysExMessage where
  data : List Nat
  offset : ℚ
deriving DecidableEq

/-- A decoded chord symbol, the embedding of a `music21`
`harmony.ChordSymbol` as the decoder produces it: root pitch name,
quality kind string, and the time offset copied from the SysEx
message. -/
structure ChordSymbol where
  root : String
  kind : String
  offset : ℚ
deriving DecidableEq

/-- The fixed 4-byte XF vendor header `F0 43 7E 7F` (`xf_header` in the
source). -/
def xf_header : List Nat := [0xF0, 0x43, 0x7E, 0x7F]

/-- The chord sub-type marker byte `0x04` (`chord_data_type` in the
source). -/
def chord_data_type : Nat := 0x04

/-- The root lookup table `root_map` of the source: XF chord root value
to pitch name, as a function to `Option String` (Python
`root_map.get`). -/
def root_map (v : Nat) : Option String :=
  if v = 0x41 then some "C#"
  else if v = 0x42 then some "D"
  else if v = 0x43 then some "D#"
  else if v = 0x44 then some "E"
  else if v = 0x45 then some "F"
  else if v = 0x46 then some "F#"
  else if v = 0x47 then some "G"
  else if v = 0x48 then some "G#"
  else if v = 0x49 then some "A"
  else if v = 0x4A then some "A#"
  else if v = 0x4B then some "B"
  else if v = 0x60 then some "C"
  else none

/-- The quality lookup table `kind_map` of the source: XF chord type
value to `music21` kind string. -/
def kind_map (v : Nat) : Option String :=
  if v = 0x01 then some "major"
  else if v = 0x02 then some "minor"
  else if v = 0x03 then some "augmented"
  else if v = 0x04 then some "diminished"
  else if v = 0x05 then some "dominant-seventh"
  else if v = 0x06 then some "minor-seventh"
  else if v = 0x07 then some "major-seventh"
  else if v = 0x08 then some "major-sixth"
  else if v = 0x09 then some "minor-sixth"
  else if v = 0x0A then some "suspended-fourth"
  else none

/-- The byte values for which `root_map` is defined. -/
def rootDomain : List Nat :=
  [0x41, 0x42, 0x43, 0x44, 0x45, 0x46, 0x47, 0x48, 0x49, 0x4A, 0x4B, 0x60]

/-- The format check of the source:
`len(data) == 9 and data[:4] == xf_header and data[4] == chord_data_type`. -/
def isXFChordMessage (data : List Nat) : Bool :=
  data.length == 9 && data.take 4 == xf_header && data.getD 4 0 == chord_data_type

/-- The warning printed by the source's `except` branch when the chord
symbol constructor raises. -/
def warnCouldNotCreate (root_str kind_str : String) : String :=
  "Warning: Could not create chord for " ++ root_str ++ kind_str ++ "."

/-- Normal-case model of the external `music21` constructor
`harmony.ChordSymbol(root=root_str, kind=kind_str)`: construction
succeeds and records the given root and kind verbatim. -/
def mkChordSymbol (root_str kind_str : String) : Option (String × String) :=
  some (root_str, kind_str)

/-- The body of the per-message loop of `_parse_xf_sysex_chords`,
parametrised by the chord-symbol constructor `mk` (whose `none` result
models a caught exception).  Returns the chords this message
contributes and the warnings it prints. -/
def decodeMsgWith (mk : String → String → Option (String × String))
    (m : RawSysExMessage) : List ChordSymbol × List String :=
  if isXFChordMessage m.data then
    let root_val := m.data.getD 6 0
    let kind_val := m.data.getD 7 0
    let kind_str := (kind_map kind_val).getD "major"
    match root_map root_val with
    | some root_str =>
      match mk root_str kind_str with
      | some rk => ([⟨rk.1, rk.2, m.offset⟩], [])
      | none => ([], [warnCouldNotCreate root_str kind_str])
    | none => ([], [])
  else ([], [])

/-- The loop of `_parse_xf_sysex_chords` over all SysEx messages of the
stream: accumulated chords and accumulated warnings, in input order. -/
def decodeWith (mk : String → String → Option (String × String)) :
    List RawSysExMessage → List ChordSymbol × List String
  | [] => ([], [])
  | m :: rest =>
    ((decodeMsgWith mk m).1 ++ (decodeWith mk rest).1,
     (decodeMsgWith mk m).2 ++ (decodeWith mk rest).2)

/-- `_parse_xf_sysex_chords` of the source: the decoded chord list (its
return value), with the constructor in the normal case. -/
def parse_xf_sysex_chords (msgs : List RawSysExMessage) : List ChordSymbol :=
  (decodeWith mkChordSymbol msgs).1

/-! ## The assembler (`create_lead_sheet`) -/

/-- A time signature element, as copied from the melody part
(`meter.TimeSignature`). -/
structure TimeSignature where
  numerator : Nat
  denominator : Nat
deriving DecidableEq

/-- A key signature element, as copied from the melody part
(`key.KeySignature`). -/
structure KeySignature where
  sharps : Int
deriving DecidableEq

/-- A melodic note or rest with its duration and time offset
(`pitch = none` is a rest); passed through unmodified by the
assembler. -/
structure NoteOrRest where
  pitch : Option Nat
  duration : ℚ
  offset : ℚ
deriving DecidableEq

/-- An element of a melody part, in part order. -/
inductive PartElem where
  | tsElem : TimeSignature → PartElem
  | ksElem : KeySignature → PartElem
  | nrElem : NoteOrRest → PartElem
deriving DecidableEq

/-- A part of a parsed melody score (`music21` `stream.Part`): its
elements in part order. -/
structure MelodyPart where
  elems : List PartElem
deriving DecidableEq

/-- A parsed melody score (`music21` `stream.Score`): its parts. -/
structure Score where
  parts : List MelodyPart
deriving DecidableEq

/-- `melody_part.getElementsByClass(meter.TimeSignature).first()`. -/
def MelodyPart.firstTimeSignature (p : MelodyPart) : Option TimeSignature :=
  p.elems.findSome? fun e =>
    match e with
    | PartElem.tsElem t => some t
    | _ => none

/-- `melody_part.getElementsByClass(key.KeySignature).first()`. -/
def MelodyPart.firstKeySignature (p : MelodyPart) : Option KeySignature :=
  p.elems.findSome? fun e =>
    match e with
    | PartElem.ksElem k => some k
    | _ => none

/-- `melody_part.notesAndRests`: the part's notes and rests, in part
order. -/
def MelodyPart.notesAndRests (p : MelodyPart) : List NoteOrRest :=
  p.elems.filterMap fun e =>
    match e with
    | PartElem.nrElem n => some n
    | _ => none

/-- An element of the output lead-sheet part. -/
inductive OutElem where
  | tsOut : TimeSignature → OutElem
  | ksOut : KeySignature → OutElem
  | chordOut : ChordSymbol → OutElem
  | nrOut : NoteOrRest → OutElem
deriving DecidableEq

/-- Model of the external `music21` container operation
`Stream.insert(offset, element)`: a sorted-by-offset container with
stable insertion semantics (the collaborator contract of the
specification, §5 and §9) — the new element is placed after every
element of offset at most its own and before the first element of
strictly greater offset. -/
def insertStable : List (ℚ × OutElem) → ℚ → OutElem → List (ℚ × OutElem)
  | [], off, e => [(off, e)]
  | p :: rest, off, e =>
    if off < p.1 then (off, e) :: p :: rest
    else p :: insertStable rest off e

/-- The warning printed by `create_lead_sheet` when no chords were
decoded. -/
def warnNoChords : String :=
  "Warning: No XF chord symbols were found in the chord file."

/-- Step 4 of `create_lead_sheet`: the output part holding the melody
part's first time signature and first key signature (when present),
each inserted at offset 0. -/
def metaTimeline (melody_part : MelodyPart) : List (ℚ × OutElem) :=
  let t1 : List (ℚ × OutElem) :=
    match melody_part.firstTimeSignature with
    | some t => insertStable [] 0 (OutElem.tsOut t)
    | none => []
  match melody_part.firstKeySignature with
  | some k => insertStable t1 0 (OutElem.ksOut k)
  | none => t1

/-- The melody-side and merge logic of `create_lead_sheet` (steps 2–7 of
the source function), over an already decoded chord list: require a
first melody part (else the `ValueError` of the source, as
`Except.error`), copy the first time signature and key signature to
offset 0, then insert every chord at its own offset and every melody
note or rest at its own offset.  Returns the populated timeline and the
warnings printed. -/
def assemble (extracted_chords : List ChordSymbol) (melody_score : Score) :
    Except String (List (ℚ × OutElem) × List String) :=
  let warns : List String :=
    if extracted_chords.isEmpty then [warnNoChords] else []
  match melody_score.parts with
  | [] => Except.error "Melody file contains no parts."
  | melody_part :: _ =>
    let t3 := extracted_chords.foldl
      (fun acc cs => insertStable acc cs.offset (OutElem.chordOut cs))
      (metaTimeline melody_part)
    let t4 := melody_part.notesAndRests.foldl
      (fun acc el => insertStable acc el.offset (OutElem.nrOut el)) t3
    Except.ok (t4, warns)

/-- `create_lead_sheet` of the source, composed from the decoder and the
assembler; the decoder's warnings are surfaced alongside the
assembler's. -/
def create_lead_sheet (msgs : List RawSysExMessage) (melody_score : Score) :
    Except String (List (ℚ × OutElem) × List String) :=
  let dec := decodeWith mkChordSymbol msgs
  match assemble dec.1 melody_score with
  | Except.ok tw => Except.ok (tw.1, dec.2 ++ tw.2)
  | Except.error e => Except.error e

/-- True iff the output element is a note or rest. -/
def isNR (e : OutElem) : Bool :=
  match e with
  | OutElem.nrOut _ => true
  | _ => false

/-- True iff the output element is a chord symbol. -/
def isChordElem (e : OutElem) : Bool :=
  match e with
  | OutElem.chordOut _ => true
  | _ => false

/-- Number of note/rest elements in a timeline. -/
def countNotesAndRests (t : List (ℚ × OutElem)) : Nat :=
  t.countP fun p => isNR p.2

/-- Number of chord elements in a timeline. -/
def countChords (t : List (ℚ × OutElem)) : Nat :=
  t.countP fun p => isChordElem p.2

/-- The chord symbols sitting at offset `q` in a timeline, in timeline
order. -/
def chordsAt (q : ℚ) : List (ℚ × OutElem) → List ChordSymbol
  | [] => []
  | p :: rest =>
    match p.2 with
    | OutElem.chordOut c =>
      if p.1 = q then c :: chordsAt q rest else chordsAt q rest
    | _ => chordsAt q rest

/-- An example melody part: a 4/4 time signature, a quarter note C4 at
offset 0 and a quarter rest at offset 1. -/
def exampleMelodyPart : MelodyPart :=
  ⟨[PartElem.tsElem ⟨4, 4⟩, PartElem.nrElem ⟨some 60, 1, 0⟩,
    PartElem.nrElem ⟨none, 1, 1⟩]⟩

/-- An example melody score with the one example part. -/
def exampleScore : Score := ⟨[exampleMelodyPart]⟩

/-- Two example chords sharing offset 0, in a fixed input order. -/
def exampleChords : List ChordSymbol :=
  [⟨"C", "major", 0⟩, ⟨"D", "minor", 0⟩]

/-- The timeline `assemble exampleChords exampleScore` produces. -/
def exampleTimeline : List (ℚ × OutElem) :=
  [(0, OutElem.tsOut ⟨4, 4⟩), (0, OutElem.chordOut ⟨"C", "major", 0⟩),
   (0, OutElem.chordOut ⟨"D", "minor", 0⟩), (0, OutElem.nrOut ⟨some 60, 1, 0⟩),
   (1, OutElem.nrOut ⟨none, 1, 1⟩)]

/-! ## Decoder lemmas -/

/-- Conditions under which the format check succeeds. -/
theorem isXFChordMessage_eq_true {data : List Nat} (hlen : data.length = 9)
    (hhdr : data.take 4 = xf_header) (hsub : data.getD 4 0 = chord_data_type) :
    isXFChordMessage data = true := by
  have h4 : 4 < data.length := by omega
  have hsub4 : data[4] = chord_data_type := by
    rw [← List.getD_eq_getElem data 0 h4]; exact hsub
  simp [isXFChordMessage, hlen, hhdr, hsub4]

/-! ## Claims about the decoder -/

/-- C1: a 9-byte message with the XF vendor header, the chord sub-type
marker, and a root byte in the root table decodes to exactly one chord
symbol, whose offset is the message's own offset. -/
theorem decode_valid_message_one_chord (m : RawSysExMessage) (r : String)
    (hlen : m.data.length = 9) (hhdr : m.data.take 4 = xf_header)
    (hsub : m.data.getD 4 0 = chord_data_type)
    (hroot : root_map (m.data.getD 6 0) = some r) :
    ∃ c : ChordSymbol, decodeMsgWith mkChordSymbol m = ([c], []) ∧ c.offset = m.offset := by
  have hfmt := isXFChordMessage_eq_true hlen hhdr hsub
  have hroot6 : root_map (m.data[6]?.getD 0) = some r := by simpa using hroot
  exact ⟨⟨r, (kind_map (m.data.getD 7 0)).getD "major", m.offset⟩,
    by simp [decodeMsgWith, hfmt, hroot6, mkChordSymbol], rfl⟩

/-- Witness for C1: the end-to-end example message
`F0 43 7E 7F 04 01 60 05 F7` at offset 0 decodes to one chord at offset 0. -/
theorem decode_valid_message_one_chord_witness :
    ∃ c : ChordSymbol,
      decodeMsgWith mkChordSymbol
        ⟨[0xF0, 0x43, 0x7E, 0x7F, 0x04, 0x01, 0x60, 0x05, 0xF7], 0⟩ = ([c], []) ∧
      c.offset = (⟨[0xF0, 0x43, 0x7E, 0x7F, 0x04, 0x01, 0x60, 0x05, 0xF7], 0⟩ :
        RawSysExMessage).offset :=
  decode_valid_message_one_chord
    ⟨[0xF0, 0x43, 0x7E, 0x7F, 0x04, 0x01, 0x60, 0x05, 0xF7], 0⟩
    "C" (by decide) (by decide) (by decide) (by decide)

/-- C2: a message failing the length-9, header, or sub-type check
contributes no chord symbol and no warning, for any behaviour of the
chord constructor (no exception, not treated as an error). -/
theorem decode_skips_nonmatching (mk : String → String → Option (String × String))
    (m : RawSysExMessage)
    (h : m.data.length ≠ 9 ∨ m.data.take 4 ≠ xf_header ∨
      m.data.getD 4 0 ≠ chord_data_type) :
    decodeMsgWith mk m = ([], []) := by
  have hfmt : ¬ (isXFChordMessage m.data = true) := by
    simp only [isXFChordMessage, Bool.and_eq_true, beq_iff_eq]
    tauto
  simp [decodeMsgWith, hfmt]

/-- Witness for C2: an 8-byte message (wrong length) yields nothing. -/
theorem decode_skips_nonmatching_witness :
    decodeMsgWith mkChordSymbol
      ⟨[0xF0, 0x43, 0x7E, 0x7F, 0x04, 0x01, 0x60, 0xF7], 0⟩ = ([], []) :=
  decode_skips_nonmatching mkChordSymbol
    ⟨[0xF0, 0x43, 0x7E, 0x7F, 0x04, 0x01, 0x60, 0xF7], 0⟩ (Or.inl (by decide))

/-- C3 counterexample: the well-formed chord message whose root byte
`0x00` is outside the root table is skipped, but NO warning is emitted:
the decoder's only warning is printed in the constructor's `except`
branch, and the unknown-root path falls through silently. -/
theorem unknown_root_warning_counterexample :
    isXFChordMessage [0xF0, 0x43, 0x7E, 0x7F, 0x04, 0x01, 0x00, 0x05, 0xF7] = true ∧
    root_map 0x00 = none ∧
    decodeWith mkChordSymbol
      [⟨[0xF0, 0x43, 0x7E, 0x7F, 0x04, 0x01, 0x00, 0x05, 0xF7], 0⟩] = ([], []) := by
  refine ⟨by decide, by decide, by decide⟩

/-- C3 (amended): a well-formed chord message whose root byte is outside
the root table is skipped — no chord symbol, no substituted default
root, and no warning — for any behaviour of the chord constructor. -/
theorem unknown_root_skipped_silently (mk : String → String → Option (String × String))
    (m : RawSysExMessage) (hfmt : isXFChordMessage m.data = true)
    (hroot : root_map (m.data.getD 6 0) = none) :
    decodeMsgWith mk m = ([], []) := by
  have hroot6 : root_map (m.data[6]?.getD 0) = none := by simpa using hroot
  simp [decodeMsgWith, hfmt, hroot6]

/-- Witness for the amended C3, at root byte `0x00`. -/
theorem unknown_root_skipped_silently_witness :
    decodeMsgWith mkChordSymbol
      ⟨[0xF0, 0x43, 0x7E, 0x7F, 0x04, 0x01, 0x00, 0x05, 0xF7], 2⟩ = ([], []) :=
  unknown_root_skipped_silently mkChordSymbol
    ⟨[0xF0, 0x43, 0x7E, 0x7F, 0x04, 0x01, 0x00, 0x05, 0xF7], 2⟩ (by decide) (by decide)

/-- C4: a well-formed chord message with a known root and a quality byte
outside the quality table decodes to exactly one chord symbol whose
quality is "major"; it is neither skipped nor an error. -/
theorem unknown_kind_defaults_major (m : RawSysExMessage) (r : String)
    (hfmt : isXFChordMessage m.data = true)
    (hroot : root_map (m.data.getD 6 0) = some r)
    (hkind : kind_map (m.data.getD 7 0) = none) :
    decodeMsgWith mkChordSymbol m = ([⟨r, "major", m.offset⟩], []) := by
  have hroot6 : root_map (m.data[6]?.getD 0) = some r := by simpa using hroot
  have hkind7 : kind_map (m.data[7]?.getD 0) = none := by simpa using hkind
  simp [decodeMsgWith, hfmt, hroot6, hkind7, mkChordSymbol]

/-- Witness for C4: quality byte `0xFF` with root byte `0x60` yields one
"major" chord. -/
theorem unknown_kind_defaults_major_witness :
    decodeMsgWith mkChordSymbol
      ⟨[0xF0, 0x43, 0x7E, 0x7F, 0x04, 0x01, 0x60, 0xFF, 0xF7], 1⟩ =
      ([⟨"C", "major", 1⟩], []) :=
  unknown_kind_defaults_major
    ⟨[0xF0, 0x43, 0x7E, 0x7F, 0x04, 0x01, 0x60, 0xFF, 0xF7], 1⟩
    "C" (by decide) (by decide) (by decide)

/-- C5: the root table maps exactly `0x41`–`0x4B` to `C#`–`B`
chromatically and `0x60` to `C`, and no other byte value has a root
mapping. -/
theorem root_map_exact_table :
    (∀ v : Nat, (root_map v).isSome = rootDomain.contains v) ∧
    root_map 0x41 = some "C#" ∧ root_map 0x42 = some "D" ∧
    root_map 0x43 = some "D#" ∧ root_map 0x44 = some "E" ∧
    root_map 0x45 = some "F" ∧ root_map 0x46 = some "F#" ∧
    root_map 0x47 = some "G" ∧ root_map 0x48 = some "G#" ∧
    root_map 0x49 = some "A" ∧ root_map 0x4A = some "A#" ∧
    root_map 0x4B = some "B" ∧ root_map 0x60 = some "C" := by
  refine ⟨fun v => ?_, rfl, rfl, rfl, rfl, rfl, rfl, rfl, rfl, rfl, rfl, rfl, rfl⟩
  by_cases hv : v ∈ rootDomain
  · fin_cases hv <;> decide
  · have hns : root_map v = none := by
      simp only [rootDomain, List.mem_cons, List.not_mem_nil, or_false, not_or] at hv
      obtain ⟨n1, n2, n3, n4, n5, n6, n7, n8, n9, n10, n11, n12⟩ := hv
      simp [root_map, n1, n2, n3, n4, n5, n6, n7, n8, n9, n10, n11, n12]
    simpa [hns] using hv

/-- C9: the decoder is total by construction (it is a Lean function);
and when the external chord constructor raises — modelled by `mk`
returning `none` — on a message that passes every format check and has
a known root, that message contributes zero chord symbols and one
warning, and the remaining messages are still processed. -/
theorem decode_constructor_exception_skips
    (mk : String → String → Option (String × String))
    (m : RawSysExMessage) (rest : List RawSysExMessage) (r : String)
    (hfmt : isXFChordMessage m.data = true)
    (hroot : root_map (m.data.getD 6 0) = some r)
    (hmk : mk r ((kind_map (m.data.getD 7 0)).getD "major") = none) :
    decodeWith mk (m :: rest) =
      ((decodeWith mk rest).1,
       warnCouldNotCreate r ((kind_map (m.data.getD 7 0)).getD "major") ::
         (decodeWith mk rest).2) := by
  have hroot6 : root_map (m.data[6]?.getD 0) = some r := by simpa using hroot
  have hmk7 : mk r ((kind_map (m.data[7]?.getD 0)).getD "major") = none := by
    simpa using hmk
  simp [decodeWith, decodeMsgWith, hfmt, hroot6, hmk7]

/-- Witness for C9: a constructor that always raises skips the valid
first message with a warning and still processes the second message. -/
theorem decode_constructor_exception_skips_witness :
    decodeWith (fun _ _ => none)
      [⟨[0xF0, 0x43, 0x7E, 0x7F, 0x04, 0x01, 0x60, 0x05, 0xF7], 0⟩,
       ⟨[0xF0, 0x43, 0x7E, 0x7F, 0x04, 0x01, 0x41, 0x01, 0xF7], 1⟩] =
      ((decodeWith (fun _ _ => none)
          [⟨[0xF0, 0x43, 0x7E, 0x7F, 0x04, 0x01, 0x41, 0x01, 0xF7], 1⟩]).1,
       warnCouldNotCreate "C" "dominant-seventh" ::
         (decodeWith (fun _ _ => none)
           [⟨[0xF0, 0x43, 0x7E, 0x7F, 0x04, 0x01, 0x41, 0x01, 0xF7], 1⟩]).2) :=
  decode_constructor_exception_skips (fun _ _ => none)
    ⟨[0xF0, 0x43, 0x7E, 0x7F, 0x04, 0x01, 0x60, 0x05, 0xF7], 0⟩
    [⟨[0xF0, 0x43, 0x7E, 0x7F, 0x04, 0x01, 0x41, 0x01, 0xF7], 1⟩]
    "C" (by decide) (by decide) rfl

/-- C10: the decoder checks only the length, bytes [0:4] and byte [4];
bytes [5] and [8] are never inspected, so any 9-byte message with the
right header and sub-type and a known root yields a chord symbol
whatever the values at indices 5 and 8. -/
theorem decode_ignores_bytes_5_and_8 (b5 b8 root_val kind_val : Nat) (off : ℚ)
    (r : String) (hroot : root_map root_val = some r) :
    decodeMsgWith mkChordSymbol
      ⟨[0xF0, 0x43, 0x7E, 0x7F, 0x04, b5, root_val, kind_val, b8], off⟩ =
      ([⟨r, (kind_map kind_val).getD "major", off⟩], []) := by
  simp [decodeMsgWith, isXFChordMessage, xf_header, chord_data_type, hroot,
    mkChordSymbol]

/-- Witness for C10: a message with nonstandard bytes at indices 5 and 8
(`0x7F` instead of `01`, `0x00` instead of `F7`) still decodes. -/
theorem decode_ignores_bytes_5_and_8_witness :
    decodeMsgWith mkChordSymbol
      ⟨[0xF0, 0x43, 0x7E, 0x7F, 0x04, 0x7F, 0x41, 0x02, 0x00], 0⟩ =
      ([⟨"C#", "minor", 0⟩], []) :=
  decode_ignores_bytes_5_and_8 0x7F 0x00 0x41 0x02 0 "C#" (by decide)

/-! ## Lemmas about the stable-insertion container -/

/-- Every element of the timeline after an insert was there before or is
the inserted pair. -/
theorem mem_insertStable {t : List (ℚ × OutElem)} {off : ℚ} {e : OutElem}
    {x : ℚ × OutElem} (hx : x ∈ insertStable t off e) : x ∈ t ∨ x = (off, e) := by
  induction t with
  | nil =>
    simp only [insertStable, List.mem_singleton] at hx
    exact Or.inr hx
  | cons p rest ih =>
    simp only [insertStable] at hx
    by_cases h : off < p.1
    · rw [if_pos h] at hx
      rcases List.mem_cons.mp hx with h1 | h2
      · exact Or.inr h1
      · exact Or.inl h2
    · rw [if_neg h] at hx
      rcases List.mem_cons.mp hx with h1 | h2
      · exact Or.inl (by simp [h1])
      · rcases ih h2 with h3 | h3
        · exact Or.inl (List.mem_cons_of_mem _ h3)
        · exact Or.inr h3

/-- Stable insertion preserves sortedness by offset. -/
theorem insertStable_sorted {t : List (ℚ × OutElem)} (off : ℚ) (e : OutElem)
    (ht : t.Pairwise fun a b => a.1 ≤ b.1) :
    (insertStable t off e).Pairwise fun a b => a.1 ≤ b.1 := by
  induction t with
  | nil => simp [insertStable]
  | cons p rest ih =>
    rcases List.pairwise_cons.mp ht with ⟨hle, hrest⟩
    simp only [insertStable]
    by_cases h : off < p.1
    · rw [if_pos h]
      refine List.pairwise_cons.mpr ⟨?_, ht⟩
      intro b hb
      rcases List.mem_cons.mp hb with h1 | h2
      · exact le_of_lt (h1 ▸ h)
      · exact le_trans (le_of_lt h) (hle b h2)
    · rw [if_neg h]
      refine List.pairwise_cons.mpr ⟨?_, ih hrest⟩
      intro b hb
      rcases mem_insertStable hb with h1 | h1
      · exact hle b h1
      · exact h1 ▸ le_of_not_lt h

/-- Stable insertion adds exactly the inserted pair to any count. -/
theorem insertStable_countP (pr : ℚ × OutElem → Bool)
    (t : List (ℚ × OutElem)) (off : ℚ) (e : OutElem) :
    (insertStable t off e).countP pr =
      t.countP pr + (if pr (off, e) then 1 else 0) := by
  induction t with
  | nil => simp [insertStable, List.countP_cons]
  | cons p rest ih =>
    simp only [insertStable]
    by_cases h : off < p.1
    · rw [if_pos h]
      simp only [List.countP_cons]
    · rw [if_neg h]
      simp only [List.countP_cons, ih]
      omega

/-- Counting after folding a sequence of stable inserts. -/
theorem countP_foldl_insertStable {α : Type} (key : α → ℚ) (emb : α → OutElem)
    (pr : ℚ × OutElem → Bool) (es : List α) (t : List (ℚ × OutElem)) :
    ((es.foldl (fun acc x => insertStable acc (key x) (emb x)) t).countP pr) =
      t.countP pr + es.countP (fun x => pr (key x, emb x)) := by
  induction es generalizing t with
  | nil => simp
  | cons x xs ih =>
    simp only [List.foldl_cons, List.countP_cons, ih, insertStable_countP]
    omega

/-- Sortedness after folding a sequence of stable inserts. -/
theorem foldl_insertStable_sorted {α : Type} (key : α → ℚ) (emb : α → OutElem)
    (es : List α) (t : List (ℚ × OutElem))
    (ht : t.Pairwise fun a b => a.1 ≤ b.1) :
    (es.foldl (fun acc x => insertStable acc (key x) (emb x)) t).Pairwise
      (fun a b => a.1 ≤ b.1) := by
  induction es generalizing t with
  | nil => simpa
  | cons x xs ih => exact ih _ (insertStable_sorted _ _ ht)

/-- In a timeline all of whose offsets exceed `q`, no chord sits at
offset `q`. -/
theorem chordsAt_eq_nil {q : ℚ} {t : List (ℚ × OutElem)}
    (h : ∀ x ∈ t, q < x.1) : chordsAt q t = [] := by
  induction t with
  | nil => rfl
  | cons p rest ih =>
    have hp : q < p.1 := h p (List.mem_cons_self _ _)
    have hrest := ih fun x hx => h x (List.mem_cons_of_mem _ hx)
    rcases p with ⟨o, el⟩
    cases el <;> simp_all [chordsAt, ne_of_gt hp]

/-- Inserting a non-chord element leaves the chords at any offset
unchanged. -/
theorem chordsAt_insertStable_nonchord (q : ℚ) (t : List (ℚ × OutElem))
    (off : ℚ) (e : OutElem) (he : isChordElem e = false) :
    chordsAt q (insertStable t off e) = chordsAt q t := by
  induction t with
  | nil => cases e <;> simp_all [insertStable, chordsAt, isChordElem]
  | cons p rest ih =>
    simp only [insertStable]
    by_cases h : off < p.1
    · rw [if_pos h]
      cases e <;> simp_all [chordsAt, isChordElem]
    · rw [if_neg h]
      rcases p with ⟨o, el⟩
      cases el <;> by_cases ho : o = q <;> simp_all [chordsAt]

/-- Unfolding `chordsAt` over a chord at the matching offset. -/
theorem chordsAt_cons_chord_eq (q o : ℚ) (c : ChordSymbol)
    (rest : List (ℚ × OutElem)) (h : o = q) :
    chordsAt q ((o, OutElem.chordOut c) :: rest) = c :: chordsAt q rest := by
  simp [chordsAt, h]

/-- Unfolding `chordsAt` over a chord at a different offset. -/
theorem chordsAt_cons_chord_ne (q o : ℚ) (c : ChordSymbol)
    (rest : List (ℚ × OutElem)) (h : ¬ o = q) :
    chordsAt q ((o, OutElem.chordOut c) :: rest) = chordsAt q rest := by
  simp [chordsAt, h]

/-- Unfolding `chordsAt` over a non-chord element. -/
theorem chordsAt_cons_nonchord (q o : ℚ) (e : OutElem)
    (rest : List (ℚ × OutElem)) (he : isChordElem e = false) :
    chordsAt q ((o, e) :: rest) = chordsAt q rest := by
  cases e <;> simp_all [chordsAt, isChordElem]

/-- Inserting a chord into a sorted timeline appends it to the chords
already sitting at its offset (stability). -/
theorem chordsAt_insertStable_chord (q : ℚ) (t : List (ℚ × OutElem))
    (off : ℚ) (c : ChordSymbol)
    (ht : t.Pairwise fun a b => a.1 ≤ b.1) :
    chordsAt q (insertStable t off (OutElem.chordOut c)) =
      chordsAt q t ++ (if off = q then [c] else []) := by
  induction t with
  | nil =>
    by_cases hq : off = q <;> simp [insertStable, chordsAt, hq]
  | cons p rest ih =>
    rcases List.pairwise_cons.mp ht with ⟨hle, hrest⟩
    simp only [insertStable]
    by_cases h : off < p.1
    · rw [if_pos h]
      by_cases hq : off = q
      · have hnil : chordsAt q (p :: rest) = [] := by
          refine chordsAt_eq_nil fun x hx => ?_
          rcases List.mem_cons.mp hx with h1 | h1
          · exact h1 ▸ (hq ▸ h)
          · exact lt_of_lt_of_le (hq ▸ h) (hle x h1)
        rw [chordsAt_cons_chord_eq q off c (p :: rest) hq, hnil, if_pos hq]
        rfl
      · rw [chordsAt_cons_chord_ne q off c (p :: rest) hq, if_neg hq,
          List.append_nil]
    · rw [if_neg h]
      rcases p with ⟨o, el⟩
      rcases el with t' | k' | c' | n'
      · rw [chordsAt_cons_nonchord q o (OutElem.tsOut t') _ rfl,
          chordsAt_cons_nonchord q o (OutElem.tsOut t') rest rfl, ih hrest]
      · rw [chordsAt_cons_nonchord q o (OutElem.ksOut k') _ rfl,
          chordsAt_cons_nonchord q o (OutElem.ksOut k') rest rfl, ih hrest]
      · by_cases ho : o = q
        · rw [chordsAt_cons_chord_eq q o c' _ ho,
            chordsAt_cons_chord_eq q o c' rest ho, ih hrest, List.cons_append]
        · rw [chordsAt_cons_chord_ne q o c' _ ho,
            chordsAt_cons_chord_ne q o c' rest ho, ih hrest]
      · rw [chordsAt_cons_nonchord q o (OutElem.nrOut n') _ rfl,
          chordsAt_cons_nonchord q o (OutElem.nrOut n') rest rfl, ih hrest]

/-- Folding chord inserts into a sorted timeline: the chords at offset
`q` are those already present followed by the inserted chords whose
offset is `q`, in input order. -/
theorem chordsAt_foldl_chords (q : ℚ) (chords : List ChordSymbol)
    (t : List (ℚ × OutElem)) (ht : t.Pairwise fun a b => a.1 ≤ b.1) :
    chordsAt q (chords.foldl
        (fun acc cs => insertStable acc cs.offset (OutElem.chordOut cs)) t) =
      chordsAt q t ++ chords.filter (fun c => decide (c.offset = q)) := by
  induction chords generalizing t with
  | nil => simp
  | cons c cs ih =>
    simp only [List.foldl_cons]
    rw [ih _ (insertStable_sorted _ _ ht), chordsAt_insertStable_chord _ _ _ _ ht]
    by_cases hq : c.offset = q <;> simp [List.filter_cons, hq]

/-- Folding note/rest inserts never changes the chords at any offset. -/
theorem chordsAt_foldl_nrs (q : ℚ) (nrs : List NoteOrRest)
    (t : List (ℚ × OutElem)) :
    chordsAt q (nrs.foldl
        (fun acc el => insertStable acc el.offset (OutElem.nrOut el)) t) =
      chordsAt q t := by
  induction nrs generalizing t with
  | nil => rfl
  | cons n ns ih =>
    simp only [List.foldl_cons]
    rw [ih, chordsAt_insertStable_nonchord q t n.offset (OutElem.nrOut n) rfl]

/-- A timeline containing no note/rest element trivially never places a
note/rest before an equal-offset chord. -/
theorem pairwise_nr_chord_of_no_nr (t : List (ℚ × OutElem))
    (hx : ∀ x ∈ t, isNR x.2 = false) :
    t.Pairwise fun a b => ¬(a.1 = b.1 ∧ isNR a.2 = true ∧ isChordElem b.2 = true) := by
  induction t with
  | nil => exact List.Pairwise.nil
  | cons p rest ih =>
    refine List.pairwise_cons.mpr ⟨?_, ih fun x hx' => hx x (List.mem_cons_of_mem _ hx')⟩
    intro b _ hcontra
    have := hx p (List.mem_cons_self _ _)
    rw [this] at hcontra
    exact absurd hcontra.2.1 (by simp)

/-- Elements inserted into a timeline without note/rest elements by a
non-note insert keep it free of note/rest elements. -/
theorem no_nr_insertStable {t : List (ℚ × OutElem)} {off : ℚ} {e : OutElem}
    (hx : ∀ x ∈ t, isNR x.2 = false) (he : isNR e = false) :
    ∀ x ∈ insertStable t off e, isNR x.2 = false := by
  intro x hmem
  rcases mem_insertStable hmem with h | h
  · exact hx x h
  · rw [h]; exact he

/-- Inserting a note/rest into a sorted timeline that never places a
note/rest before an equal-offset chord preserves that property: the
note lands after everything at its own offset, and everything after it
has a strictly greater offset. -/
theorem pairwise_nr_chord_insert_nr {t : List (ℚ × OutElem)} {off : ℚ}
    {n : NoteOrRest}
    (hs : t.Pairwise fun a b => a.1 ≤ b.1)
    (hQ : t.Pairwise fun a b => ¬(a.1 = b.1 ∧ isNR a.2 = true ∧ isChordElem b.2 = true)) :
    (insertStable t off (OutElem.nrOut n)).Pairwise
      fun a b => ¬(a.1 = b.1 ∧ isNR a.2 = true ∧ isChordElem b.2 = true) := by
  induction t with
  | nil => simp [insertStable]
  | cons p rest ih =>
    rcases List.pairwise_cons.mp hs with ⟨hle, hsrest⟩
    rcases List.pairwise_cons.mp hQ with ⟨hQp, hQrest⟩
    simp only [insertStable]
    by_cases h : off < p.1
    · rw [if_pos h]
      refine List.pairwise_cons.mpr ⟨?_, hQ⟩
      intro b hb hcontra
      rcases List.mem_cons.mp hb with h1 | h1
      · have hoff : off = p.1 := by simpa [h1] using hcontra.1
        exact absurd hoff (ne_of_lt h)
      · exact absurd hcontra.1 (ne_of_lt (lt_of_lt_of_le h (hle b h1)))
    · rw [if_neg h]
      refine List.pairwise_cons.mpr ⟨?_, ih hsrest hQrest⟩
      intro b hb
      rcases mem_insertStable hb with h1 | h1
      · exact hQp b h1
      · rw [h1]
        intro hcontra
        exact absurd hcontra.2.2 (by simp [isChordElem])

/-- Folding note/rest inserts into a sorted timeline preserves the
chords-before-equal-offset-notes property. -/
theorem pairwise_nr_chord_foldl_nrs (nrs : List NoteOrRest)
    (t : List (ℚ × OutElem))
    (hs : t.Pairwise fun a b => a.1 ≤ b.1)
    (hQ : t.Pairwise fun a b => ¬(a.1 = b.1 ∧ isNR a.2 = true ∧ isChordElem b.2 = true)) :
    (nrs.foldl (fun acc el => insertStable acc el.offset (OutElem.nrOut el)) t).Pairwise
      fun a b => ¬(a.1 = b.1 ∧ isNR a.2 = true ∧ isChordElem b.2 = true) := by
  induction nrs generalizing t with
  | nil => exact hQ
  | cons n ns ih =>
    exact ih _ (insertStable_sorted _ _ hs) (pairwise_nr_chord_insert_nr hs hQ)

/-- Folding chord inserts keeps a timeline free of note/rest elements. -/
theorem no_nr_foldl_chords (chords : List ChordSymbol) (t : List (ℚ × OutElem))
    (hx : ∀ x ∈ t, isNR x.2 = false) :
    ∀ x ∈ chords.foldl
        (fun acc cs => insertStable acc cs.offset (OutElem.chordOut cs)) t,
      isNR x.2 = false := by
  induction chords generalizing t with
  | nil => exact hx
  | cons c cs ih =>
    exact ih _ (no_nr_insertStable hx rfl)

/-- The decoder is a homomorphism for list append: it processes messages
independently and in input order. -/
theorem decodeWith_append (mk : String → String → Option (String × String))
    (xs ys : List RawSysExMessage) :
    decodeWith mk (xs ++ ys) =
      ((decodeWith mk xs).1 ++ (decodeWith mk ys).1,
       (decodeWith mk xs).2 ++ (decodeWith mk ys).2) := by
  induction xs with
  | nil => simp [decodeWith]
  | cons m ms ih => simp [decodeWith, ih]

/-! ## Properties of the metadata timeline -/

/-- The metadata timeline is sorted by offset. -/
theorem metaTimeline_sorted (p : MelodyPart) :
    (metaTimeline p).Pairwise fun a b => a.1 ≤ b.1 := by
  unfold metaTimeline
  rcases p.firstTimeSignature with _ | t <;>
    rcases p.firstKeySignature with _ | k <;>
      simp [insertStable]

/-- The metadata timeline contains no note or rest. -/
theorem metaTimeline_no_nr (p : MelodyPart) :
    ∀ x ∈ metaTimeline p, isNR x.2 = false := by
  unfold metaTimeline
  rcases p.firstTimeSignature with _ | t <;>
    rcases p.firstKeySignature with _ | k <;>
      simp [insertStable, isNR]

/-- The metadata timeline contains no chord. -/
theorem metaTimeline_no_chord (p : MelodyPart) :
    ∀ x ∈ metaTimeline p, isChordElem x.2 = false := by
  unfold metaTimeline
  rcases p.firstTimeSignature with _ | t <;>
    rcases p.firstKeySignature with _ | k <;>
      simp [insertStable, isChordElem]

/-- A timeline without chord elements has no chord at any offset. -/
theorem chordsAt_eq_nil_of_no_chord {q : ℚ} {t : List (ℚ × OutElem)}
    (h : ∀ x ∈ t, isChordElem x.2 = false) : chordsAt q t = [] := by
  induction t with
  | nil => rfl
  | cons p rest ih =>
    have hp := h p (List.mem_cons_self _ _)
    have hrest := ih fun x hx => h x (List.mem_cons_of_mem _ hx)
    rcases p with ⟨o, el⟩
    cases el <;> simp_all [chordsAt, isChordElem]

/-- `assemble` in the nonempty-melody case, fully unfolded. -/
theorem assemble_eq_of_parts (chords : List ChordSymbol) (score : Score)
    (p : MelodyPart) (ps : List MelodyPart) (hparts : score.parts = p :: ps) :
    assemble chords score = Except.ok
      (p.notesAndRests.foldl
        (fun acc el => insertStable acc el.offset (OutElem.nrOut el))
        (chords.foldl
          (fun acc cs => insertStable acc cs.offset (OutElem.chordOut cs))
          (metaTimeline p)),
       if chords.isEmpty then [warnNoChords] else []) := by
  unfold assemble
  rw [hparts]

/-- Each melody note/rest insert increases the note/rest count by one. -/
theorem countNR_foldl_nrs (nrs : List NoteOrRest) (t : List (ℚ × OutElem)) :
    countNotesAndRests (nrs.foldl
        (fun acc el => insertStable acc el.offset (OutElem.nrOut el)) t) =
      countNotesAndRests t + nrs.length := by
  induction nrs generalizing t with
  | nil => rfl
  | cons n ns ih =>
    simp only [List.foldl_cons, ih]
    unfold countNotesAndRests
    rw [insertStable_countP]
    simp [isNR, List.length_cons]
    omega

/-- Melody note/rest inserts leave the chord count unchanged. -/
theorem countChords_foldl_nrs (nrs : List NoteOrRest) (t : List (ℚ × OutElem)) :
    countChords (nrs.foldl
        (fun acc el => insertStable acc el.offset (OutElem.nrOut el)) t) =
      countChords t := by
  induction nrs generalizing t with
  | nil => rfl
  | cons n ns ih =>
    simp only [List.foldl_cons, ih]
    unfold countChords
    rw [insertStable_countP]
    simp [isChordElem]

/-- The metadata timeline counts no note/rest and no chord. -/
theorem metaTimeline_counts (p : MelodyPart) :
    countNotesAndRests (metaTimeline p) = 0 ∧ countChords (metaTimeline p) = 0 := by
  constructor
  · exact List.countP_eq_zero.mpr fun x hx => by simp [metaTimeline_no_nr p x hx]
  · exact List.countP_eq_zero.mpr fun x hx => by simp [metaTimeline_no_chord p x hx]

/-! ## Claims about the assembler -/

/-- C6: with an empty chord list and a melody whose first part has N
notes/rests, `assemble` succeeds, surfaces the no-chords warning, and
the output holds exactly N note/rest elements and zero chords. -/
theorem assemble_empty_chords (score : Score) (p : MelodyPart)
    (ps : List MelodyPart) (hparts : score.parts = p :: ps) :
    ∃ t, assemble [] score = Except.ok (t, [warnNoChords]) ∧
      countNotesAndRests t = p.notesAndRests.length ∧ countChords t = 0 := by
  have h := assemble_eq_of_parts [] score p ps hparts
  simp only [List.isEmpty_nil, if_true, List.foldl_nil] at h
  refine ⟨_, h, ?_, ?_⟩
  · rw [countNR_foldl_nrs, (metaTimeline_counts p).1, Nat.zero_add]
  · rw [countChords_foldl_nrs, (metaTimeline_counts p).2]

/-- Witness for C6: the example score yields two note/rest elements, no
chords, and the warning. -/
theorem assemble_empty_chords_witness :
    ∃ t, assemble [] exampleScore = Except.ok (t, [warnNoChords]) ∧
      countNotesAndRests t = exampleMelodyPart.notesAndRests.length ∧
      countChords t = 0 :=
  assemble_empty_chords exampleScore exampleMelodyPart [] rfl

/-- C7: with a melody containing zero parts, `assemble` (and the whole
`create_lead_sheet`) fails with the identifiable error of the source's
`ValueError`, regardless of the chord list; the `Except.error` result
carries no timeline, so nothing is ever written. -/
theorem assemble_no_parts_error (chords : List ChordSymbol)
    (msgs : List RawSysExMessage) (score : Score) (hparts : score.parts = []) :
    assemble chords score = Except.error "Melody file contains no parts." ∧
    create_lead_sheet msgs score =
      Except.error "Melody file contains no parts." := by
  have h2 : ∀ cs : List ChordSymbol,
      assemble cs score = Except.error "Melody file contains no parts." := by
    intro cs
    unfold assemble
    rw [hparts]
  exact ⟨h2 chords, by simp only [create_lead_sheet, h2]⟩

/-- Witness for C7: a score with no parts fails with the error. -/
theorem assemble_no_parts_error_witness :
    assemble exampleChords ⟨[]⟩ =
      Except.error "Melody file contains no parts." ∧
    create_lead_sheet [] ⟨[]⟩ =
      Except.error "Melody file contains no parts." :=
  assemble_no_parts_error exampleChords [] ⟨[]⟩ rfl

/-- C8: the pipeline's ordering is stable and deterministic — the
decoder processes messages in input order (append homomorphism), and
any timeline `assemble` returns is sorted by offset, keeps same-offset
chords in chord-input order, and never places a note/rest before a
chord of equal offset (chords are merged first). -/
theorem assemble_stable_order
    (mk : String → String → Option (String × String))
    (xs ys : List RawSysExMessage)
    (chords : List ChordSymbol) (score : Score)
    (t : List (ℚ × OutElem)) (w : List String) (q : ℚ)
    (hok : assemble chords score = Except.ok (t, w)) :
    decodeWith mk (xs ++ ys) =
      ((decodeWith mk xs).1 ++ (decodeWith mk ys).1,
       (decodeWith mk xs).2 ++ (decodeWith mk ys).2) ∧
    t.Pairwise (fun a b => a.1 ≤ b.1) ∧
    chordsAt q t = chords.filter (fun c => decide (c.offset = q)) ∧
    t.Pairwise
      (fun a b => ¬(a.1 = b.1 ∧ isNR a.2 = true ∧ isChordElem b.2 = true)) := by
  rcases hp : score.parts with _ | ⟨p, ps⟩
  · rw [assemble_no_parts_error chords [] score hp |>.1] at hok
    exact absurd hok (by simp)
  · rw [assemble_eq_of_parts chords score p ps hp, Except.ok.injEq,
      Prod.mk.injEq] at hok
    obtain ⟨ht, hw⟩ := hok
    subst ht
    have hs2 := metaTimeline_sorted p
    have hs3 : (chords.foldl
        (fun acc cs => insertStable acc cs.offset (OutElem.chordOut cs))
        (metaTimeline p)).Pairwise (fun a b => a.1 ≤ b.1) :=
      foldl_insertStable_sorted (fun cs => cs.offset) OutElem.chordOut chords _ hs2
    refine ⟨decodeWith_append mk xs ys, ?_, ?_, ?_⟩
    · exact foldl_insertStable_sorted (fun el => el.offset) OutElem.nrOut
        p.notesAndRests _ hs3
    · rw [chordsAt_foldl_nrs, chordsAt_foldl_chords q chords _ hs2,
        chordsAt_eq_nil_of_no_chord (metaTimeline_no_chord p), List.nil_append]
    · exact pairwise_nr_chord_foldl_nrs _ _ hs3
        (pairwise_nr_chord_of_no_nr _ (no_nr_foldl_chords chords _ (metaTimeline_no_nr p)))

/-- Witness for C8: the example chords and score, checked at offset 0,
where the two chords keep their input order and precede the note. -/
theorem assemble_stable_order_witness :
    decodeWith mkChordSymbol
      ([⟨[0xF0, 0x43, 0x7E, 0x7F, 0x04, 0x01, 0x60, 0x01, 0xF7], 0⟩] ++
        [⟨[0xF0, 0x43, 0x7E, 0x7F, 0x04, 0x01, 0x42, 0x02, 0xF7], 1⟩]) =
      ((decodeWith mkChordSymbol
          [⟨[0xF0, 0x43, 0x7E, 0x7F, 0x04, 0x01, 0x60, 0x01, 0xF7], 0⟩]).1 ++
        (decodeWith mkChordSymbol
          [⟨[0xF0, 0x43, 0x7E, 0x7F, 0x04, 0x01, 0x42, 0x02, 0xF7], 1⟩]).1,
       (decodeWith mkChordSymbol
          [⟨[0xF0, 0x43, 0x7E, 0x7F, 0x04, 0x01, 0x60, 0x01, 0xF7], 0⟩]).2 ++
        (decodeWith mkChordSymbol
          [⟨[0xF0, 0x43, 0x7E, 0x7F, 0x04, 0x01, 0x42, 0x02, 0xF7], 1⟩]).2) ∧
    exampleTimeline.Pairwise (fun a b => a.1 ≤ b.1) ∧
    chordsAt 0 exampleTimeline =
      exampleChords.filter (fun c => decide (c.offset = 0)) ∧
    exampleTimeline.Pairwise
      (fun a b => ¬(a.1 = b.1 ∧ isNR a.2 = true ∧ isChordElem b.2 = true)) :=
  assemble_stable_order mkChordSymbol
    [⟨[0xF0, 0x43, 0x7E, 0x7F, 0x04, 0x01, 0x60, 0x01, 0xF7], 0⟩]
    [⟨[0xF0, 0x43, 0x7E, 0x7F, 0x04, 0x01, 0x42, 0x02, 0xF7], 1⟩]
    exampleChords exampleScore exampleTimeline [] 0 (by rfl)
